import Mathlib

/-!
Shallow embedding of the Maya-to-Marmoset baking renamer
(`maya_baking_renamer.py`, class `MayaBakingRenamer`).

Python strings are modelled as lists of characters, the Maya scene as the
list of its objects' names, and the tool's mutable attributes
(`selection_history`, `rename_history`) together with the scene as an
explicit state record.  Host-application calls (`maya.cmds`) that the tool
uses are modelled on that state: `cmds.ls`, `cmds.rename`, `cmds.objExists`,
`cmds.warning` (records a warning message) and `cmds.error` (records an
error message).
-/

/-- Object names are modelled as the character sequences Python strings are. -/
abbrev Name := List Char

/-- A Lean string literal viewed as a `Name`. -/
def toName (s : String) : Name := s.toList

/-- A scene is the list of its objects' names. -/
abbrev Scene := List Name

/-- The fixed suffix list of `clean_object_name` (source line 75):
`['_low', '_high', '_cage', '_bake', '_LP', '_HP']`. -/
def suffixes : List Name :=
  [toName "_low", toName "_high", toName "_cage", toName "_bake",
   toName "_LP", toName "_HP"]

/-- Method `MayaBakingRenamer.clean_object_name`: scan `suffixes` in order; at the
first suffix the name ends with, drop that suffix from the end
(`base_name[:-len(suffix)]`) and `break`; otherwise return the name. -/
def clean_object_name (obj_name : Name) : Name :=
  match suffixes.find? (fun s => s.isSuffixOf obj_name) with
  | some s => obj_name.take (obj_name.length - s.length)
  | none => obj_name

/-- Decimal digit characters of a natural number (most significant first),
as Python's `d` format produces them. -/
def natToDigits (n : Nat) : List Char :=
  if n = 0 then ['0']
  else ((Nat.digits 10 n).reverse).map (fun d => Char.ofNat (48 + d))

/-- Python's `f"{counter:02d}"`: decimal digits, zero-padded on the left to
width 2. -/
def format02d (n : Nat) : List Char :=
  let ds := natToDigits n
  if ds.length < 2 then List.replicate (2 - ds.length) '0' ++ ds else ds

/-- Call `cmds.ls(new_name)`: the scene objects bearing exactly this name. -/
def cmds_ls_name (scene : Scene) (name : Name) : List Name :=
  scene.filter (fun o => o == name)

/-- Method `MayaBakingRenamer.check_name_conflict`: `len(cmds.ls(new_name)) > 0`. -/
def check_name_conflict (scene : Scene) (new_name : Name) : Bool :=
  decide ((cmds_ls_name scene new_name).length > 0)

/-- The `while True:` search of `generate_unique_name`, trying
`f"{base_name}_{counter:02d}"` for `counter = c, c+1, ...`.  The loop has no
bound in the source; the explicit fuel models it, `none` standing for
nontermination, and `generate_unique_name_spec` proves that with fuel
`scene.length + 1` the `none` case is never reached. -/
def unique_name_loop (scene : Scene) (base_name : Name) : Nat → Nat → Option Name
  | 0, _ => none
  | fuel + 1, counter =>
    let new_name := base_name ++ '_' :: format02d counter
    if check_name_conflict scene new_name then
      unique_name_loop scene base_name fuel (counter + 1)
    else some new_name

/-- Method `MayaBakingRenamer.generate_unique_name`: the base name itself when it is
free, otherwise the counter search starting at 1. -/
def generate_unique_name (scene : Scene) (base_name : Name) : Option Name :=
  if !check_name_conflict scene base_name then some base_name
  else unique_name_loop scene base_name (scene.length + 1) 1

/-- The tool's state: the scene, the current selection (a sublist of the
scene's transform names), and the `MayaBakingRenamer` instance attributes
`selection_history` and `rename_history`, plus the messages the host has
been asked to display (`cmds.warning` / `cmds.error`). -/
structure RenamerState where
  scene : Scene
  selection : List Name
  selection_history : List (List Name)
  rename_history : List (List (Name × Name))
  warnings : List String
  errors : List String
deriving DecidableEq, Repr

/-- Call `cmds.warning(msg)`: the host displays a warning. -/
def addWarning (st : RenamerState) (msg : String) : RenamerState :=
  { st with warnings := st.warnings ++ [msg] }

/-- Call `cmds.error(msg)` as the source uses it inside `except` blocks: the host
reports the failure for this object and the loop continues with the rest
(spec section 7). -/
def addError (st : RenamerState) (msg : String) : RenamerState :=
  { st with errors := st.errors ++ [msg] }

/-- Rename every occurrence of a name in a name list. -/
def rename_in_list (l : List Name) (old new : Name) : List Name :=
  l.map (fun o => if o == old then new else o)

/-- Call `cmds.objExists(name)`. -/
def cmds_objExists (scene : Scene) (name : Name) : Bool :=
  scene.contains name

/-- Call `cmds.rename(old, new)`: fails (raises) when no object bears the old
name; otherwise renames the object and returns the name it now bears.  The
tool only calls it after checking the target name is free, so no host-side
uniquification is involved. -/
def cmds_rename (scene : Scene) (old new : Name) : Option (Name × Scene) :=
  if cmds_objExists scene old then some (new, rename_in_list scene old new)
  else none

/-- Method `MayaBakingRenamer.get_selected_objects`: the current selection, with a
warning and an empty result when nothing is selected. -/
def get_selected_objects (st : RenamerState) : List Name × RenamerState :=
  if st.selection.isEmpty then ([], addWarning st "请先选择要重命名的物体")
  else (st.selection, st)

/-- One iteration of the `for obj in objects:` loop shared verbatim by
`rename_to_low`, `rename_to_high` and `rename_with_custom_suffix` (only the
suffix differs): clean the name, append the suffix, resolve a conflict via
`generate_unique_name` (with a warning), rename, and accumulate the renamed
name and the `(obj, renamed_obj)` record; a failing host call is caught and
reported (`cmds.error`) and the loop moves on. -/
def rename_step (suffix : Name) (acc : List Name × List (Name × Name) × RenamerState)
    (obj : Name) : List Name × List (Name × Name) × RenamerState :=
  let renamed := acc.1
  let record := acc.2.1
  let st := acc.2.2
  let base_name := clean_object_name obj
  let first_name := base_name ++ suffix
  let resolved : Option Name × RenamerState :=
    if check_name_conflict st.scene first_name then
      match generate_unique_name st.scene first_name with
      | some u => (some u, addWarning st ("名称冲突: " ++ String.mk first_name ++ " 已存在，使用 " ++ String.mk u))
      | none => (none, st)
    else (some first_name, st)
  match resolved with
  | (some new_name, st') =>
    match cmds_rename st'.scene obj new_name with
    | some (renamed_obj, scene') =>
      (renamed ++ [renamed_obj], record ++ [(obj, renamed_obj)],
       { st' with scene := scene',
                  selection := rename_in_list st'.selection obj renamed_obj })
    | none => (renamed, record, addError st' ("重命名失败 " ++ String.mk obj))
  | (none, st') => (renamed, record, addError st' ("重命名失败 " ++ String.mk obj))

/-- The common body of the three rename operations: run the loop over the
objects, then `if rename_record: self.rename_history.append(rename_record)`,
and return `renamed_objects`. -/
def rename_objects_with_suffix (suffix : Name) (st : RenamerState)
    (objects : List Name) : List Name × RenamerState :=
  let out := objects.foldl (rename_step suffix) ([], [], st)
  let st' := out.2.2
  let st'' :=
    if out.2.1.isEmpty then st'
    else { st' with rename_history := st'.rename_history ++ [out.2.1] }
  (out.1, st'')

/-- Method `MayaBakingRenamer.rename_to_low` (argument `none` stands for Python's
default `objects=None`, resolved from the selection). -/
def rename_to_low (st : RenamerState) (objects : Option (List Name)) :
    List Name × RenamerState :=
  let resolved := match objects with
    | some objs => (objs, st)
    | none => get_selected_objects st
  if resolved.1.isEmpty then ([], resolved.2)
  else rename_objects_with_suffix (toName "_low") resolved.2 resolved.1

/-- Method `MayaBakingRenamer.rename_to_high`. -/
def rename_to_high (st : RenamerState) (objects : Option (List Name)) :
    List Name × RenamerState :=
  let resolved := match objects with
    | some objs => (objs, st)
    | none => get_selected_objects st
  if resolved.1.isEmpty then ([], resolved.2)
  else rename_objects_with_suffix (toName "_high") resolved.2 resolved.1

/-- Method `MayaBakingRenamer.rename_with_custom_suffix`: an empty suffix is
rejected with a warning; a suffix not starting with `'_'` gets one
prepended. -/
def rename_with_custom_suffix (st : RenamerState) (suffix : Name)
    (objects : Option (List Name)) : List Name × RenamerState :=
  if suffix.isEmpty then ([], addWarning st "请输入有效的后缀")
  else
    let resolved := match objects with
      | some objs => (objs, st)
      | none => get_selected_objects st
    if resolved.1.isEmpty then ([], resolved.2)
    else
      let suffix' := if (toName "_").isPrefixOf suffix then suffix else '_' :: suffix
      rename_objects_with_suffix suffix' resolved.2 resolved.1

/-- Method `MayaBakingRenamer.auto_rename_by_selection_order`: record the selection
in `selection_history`; on the first snapshot apply `_low`, on the second
apply `_high` and reset the history to `[]`, on a third re-seed the history
with just this snapshot and apply `_low` again. -/
def auto_rename_by_selection_order (st : RenamerState) : RenamerState :=
  let got := get_selected_objects st
  let selected := got.1
  if selected.isEmpty then got.2
  else
    let st₁ : RenamerState :=
      { got.2 with selection_history := got.2.selection_history ++ [selected] }
    let selection_count : Nat := st₁.selection_history.length
    if selection_count = 1 then (rename_to_low st₁ (some selected)).2
    else if selection_count = 2 then
      let st₂ := (rename_to_high st₁ (some selected)).2
      { st₂ with selection_history := [] }
    else
      let st₂ := { st₁ with selection_history := [selected] }
      (rename_to_low st₂ (some selected)).2

/-- One pair of `undo_last_rename`'s loop: rename the object back to its
original name when an object with the recorded new name still exists,
otherwise do nothing. -/
def undo_step (st : RenamerState) (p : Name × Name) : RenamerState :=
  if cmds_objExists st.scene p.2 then
    match cmds_rename st.scene p.2 p.1 with
    | some (_, scene') =>
      { st with scene := scene',
                selection := rename_in_list st.selection p.2 p.1 }
    | none => addError st ("撤销重命名失败 " ++ String.mk p.2)
  else st

/-- Method `MayaBakingRenamer.undo_last_rename`: warn when the history is empty;
otherwise `pop()` the most recent batch and process its pairs in reverse
order with `undo_step`. -/
def undo_last_rename (st : RenamerState) : RenamerState :=
  match st.rename_history.getLast? with
  | none => addWarning st "没有可撤销的重命名操作"
  | some last_rename =>
    let st₁ := { st with rename_history := st.rename_history.dropLast }
    last_rename.reverse.foldl undo_step st₁

/-- The slice of the Maya dependency graph that
`assign_material_to_objects` touches: scene objects, shadingEngine nodes,
attribute connections (source node, destination node), and shading-set
membership (set, member object). -/
structure SceneGraph where
  objects : List Name
  shadingEngines : List Name
  connections : List (Name × Name)
  setMembers : List (Name × Name)
deriving DecidableEq, Repr

/-- Call `cmds.listConnections(material, type='shadingEngine')`: the
shadingEngine nodes connected to the material. -/
def listConnections_shadingEngine (g : SceneGraph) (material : Name) : List Name :=
  (g.connections.filter
    (fun e => e.1 == material && g.shadingEngines.contains e.2)).map (fun e => e.2)

/-- Call `cmds.sets(renderable=True, noSurfaceShader=True, empty=True, name=...)`:
create an empty renderable set with the given name and return it. -/
def cmds_sets_create (g : SceneGraph) (name : Name) : Name × SceneGraph :=
  (name, { g with shadingEngines := g.shadingEngines ++ [name] })

/-- Call `cmds.connectAttr` from the material's outColor to the group's surfaceShader:
record the connection from the material node to the shading group. -/
def cmds_connectAttr (g : SceneGraph) (src dst : Name) : SceneGraph :=
  { g with connections := g.connections ++ [(src, dst)] }

/-- Call `cmds.objExists(obj)` on the shading model. -/
def sg_objExists (g : SceneGraph) (name : Name) : Bool :=
  g.objects.contains name

/-- Call `cmds.sets(obj, edit=True, forceElement=sg)`: move the object into the
shading set, removing it from any other shading set it was in. -/
def cmds_sets_forceElement (g : SceneGraph) (sg obj : Name) : SceneGraph :=
  { g with setMembers :=
      (g.setMembers.filter
        (fun m => !(m.2 == obj && g.shadingEngines.contains m.1))) ++ [(sg, obj)] }

/-- The `shading_group` resolution of `assign_material_to_objects`: reuse
the material's first connected shadingEngine group, or create
`f"{material}SG"` and connect the material's `outColor` to its
`surfaceShader`. -/
def material_shading_group (g : SceneGraph) (material : Name) :
    Name × SceneGraph :=
  match listConnections_shadingEngine g material with
  | c :: _ => (c, g)
  | [] =>
    let created := cmds_sets_create g (material ++ toName "SG")
    (created.1, cmds_connectAttr created.2 material created.1)

/-- One iteration of the `for obj in objects:` assignment loop: existing
objects are force-assigned to the group and collected, missing ones are
skipped. -/
def assign_step (shading_group : Name) (acc : List Name × SceneGraph)
    (obj : Name) : List Name × SceneGraph :=
  if sg_objExists acc.2 obj then
    (acc.1 ++ [obj], cmds_sets_forceElement acc.2 shading_group obj)
  else acc

/-- Method `MayaBakingRenamer.assign_material_to_objects`: resolve the shading
group, then force-assign every existing object of the list to it, returning
the objects actually assigned. -/
def assign_material_to_objects (g : SceneGraph) (objects : List Name)
    (material : Name) : List Name × SceneGraph :=
  if objects.isEmpty || material.isEmpty then ([], g)
  else
    let grp := material_shading_group g material
    objects.foldl (assign_step grp.1) ([], grp.2)

/-! ### Basic facts about the scene-existence check -/

theorem check_name_conflict_iff (scene : Scene) (n : Name) :
    check_name_conflict scene n = true ↔ n ∈ scene := by
  simp only [check_name_conflict, cmds_ls_name, decide_eq_true_eq]
  constructor
  · intro h
    rcases List.exists_mem_of_length_pos h with ⟨x, hx⟩
    rcases List.mem_filter.mp hx with ⟨hmem, hbeq⟩
    rcases eq_of_beq hbeq with rfl
    exact hmem
  · intro h
    apply List.length_pos_of_mem (a := n)
    exact List.mem_filter.mpr ⟨h, beq_self_eq_true n⟩

theorem check_name_conflict_false_iff (scene : Scene) (n : Name) :
    check_name_conflict scene n = false ↔ n ∉ scene := by
  rw [← Bool.not_eq_true, not_iff_not]
  exact check_name_conflict_iff scene n

/-! ### Injectivity of the `_{counter:02d}` counter format -/

theorem digitChar_inj :
    ∀ a < 10, ∀ b < 10, Char.ofNat (48 + a) = Char.ofNat (48 + b) → a = b := by
  decide

theorem digitChar_eq_zero_iff :
    ∀ d < 10, (Char.ofNat (48 + d) = '0' ↔ d = 0) := by
  decide

theorem map_digitChar_inj :
    ∀ (l l' : List Nat), (∀ x ∈ l, x < 10) → (∀ x ∈ l', x < 10) →
      l.map (fun d => Char.ofNat (48 + d)) = l'.map (fun d => Char.ofNat (48 + d)) →
      l = l' := by
  intro l
  induction l with
  | nil =>
    intro l' _ _ h
    cases l' with
    | nil => rfl
    | cons b t' => simp at h
  | cons a t ih =>
    intro l' hl hl' h
    cases l' with
    | nil => simp at h
    | cons b t' =>
      simp only [List.map_cons, List.cons.injEq] at h
      have hab : a = b :=
        digitChar_inj a (hl a (by simp)) b (hl' b (by simp)) h.1
      have ht : t = t' :=
        ih t' (fun x hx => hl x (by simp [hx])) (fun x hx => hl' x (by simp [hx])) h.2
      rw [hab, ht]

theorem natToDigits_ne_nil (n : Nat) : natToDigits n ≠ [] := by
  unfold natToDigits
  split
  · simp
  · simp only [ne_eq, List.map_eq_nil_iff, List.reverse_eq_nil_iff]
    exact Nat.digits_ne_nil_iff_ne_zero.mpr (by assumption)

theorem natToDigits_inj {a b : Nat} (h : natToDigits a = natToDigits b) : a = b := by
  by_cases ha : a = 0 <;> by_cases hb : b = 0
  · omega
  all_goals unfold natToDigits at h
  · rw [if_pos ha, if_neg hb] at h
    have hlen : ((Nat.digits 10 b).reverse.map (fun d => Char.ofNat (48 + d))).length = 1 := by
      rw [← h]; rfl
    simp only [List.length_map, List.length_reverse] at hlen
    rcases List.length_eq_one.mp hlen with ⟨d, hd⟩
    rw [hd] at h
    have hdigit : d ∈ Nat.digits 10 b := by rw [hd]; simp
    have hdlt : d < 10 := Nat.digits_lt_base (by norm_num) hdigit
    have hbd : b = d := by
      have := Nat.ofDigits_digits 10 b
      rw [hd] at this
      simpa [Nat.ofDigits] using this.symm
    have hchar : Char.ofNat (48 + d) = '0' := by
      simpa using h.symm
    have := (digitChar_eq_zero_iff d hdlt).mp hchar
    omega
  · rw [if_neg ha, if_pos hb] at h
    have hlen : ((Nat.digits 10 a).reverse.map (fun d => Char.ofNat (48 + d))).length = 1 := by
      rw [h]; rfl
    simp only [List.length_map, List.length_reverse] at hlen
    rcases List.length_eq_one.mp hlen with ⟨d, hd⟩
    rw [hd] at h
    have hdigit : d ∈ Nat.digits 10 a := by rw [hd]; simp
    have hdlt : d < 10 := Nat.digits_lt_base (by norm_num) hdigit
    have had : a = d := by
      have := Nat.ofDigits_digits 10 a
      rw [hd] at this
      simpa [Nat.ofDigits] using this.symm
    have hchar : Char.ofNat (48 + d) = '0' := by
      simpa using h
    have := (digitChar_eq_zero_iff d hdlt).mp hchar
    omega
  · rw [if_neg ha, if_neg hb] at h
    have hrev : (Nat.digits 10 a).reverse = (Nat.digits 10 b).reverse := by
      apply map_digitChar_inj _ _ _ _ h
      · intro x hx
        exact Nat.digits_lt_base (by norm_num) (List.mem_reverse.mp hx)
      · intro x hx
        exact Nat.digits_lt_base (by norm_num) (List.mem_reverse.mp hx)
    have hdig : Nat.digits 10 a = Nat.digits 10 b := List.reverse_injective hrev
    calc a = Nat.ofDigits 10 (Nat.digits 10 a) := (Nat.ofDigits_digits 10 a).symm
    _ = Nat.ofDigits 10 (Nat.digits 10 b) := by rw [hdig]
    _ = b := Nat.ofDigits_digits 10 b

theorem natToDigits_head_ne_zero {n : Nat} (hn : n ≠ 0) :
    (natToDigits n).head? ≠ some '0' := by
  unfold natToDigits
  rw [if_neg hn]
  have hne : Nat.digits 10 n ≠ [] := Nat.digits_ne_nil_iff_ne_zero.mpr hn
  rw [List.head?_map, List.head?_reverse, List.getLast?_eq_getLast _ hne]
  intro h
  simp only [Option.map_some', Option.some.injEq] at h
  have hd := List.getLast_mem hne
  have hdlt : (Nat.digits 10 n).getLast hne < 10 := Nat.digits_lt_base (by norm_num) hd
  exact Nat.getLast_digit_ne_zero 10 hn ((digitChar_eq_zero_iff _ hdlt).mp h)

theorem format02d_inj {a b : Nat} (h : format02d a = format02d b) : a = b := by
  unfold format02d at h
  have hla := natToDigits_ne_nil a
  have hlb := natToDigits_ne_nil b
  by_cases h2a : (natToDigits a).length < 2 <;> by_cases h2b : (natToDigits b).length < 2
  · rw [if_pos h2a, if_pos h2b] at h
    have ha1 : (natToDigits a).length = 1 := by
      have := List.length_pos_iff_ne_nil.mpr hla
      omega
    have hb1 : (natToDigits b).length = 1 := by
      have := List.length_pos_iff_ne_nil.mpr hlb
      omega
    rw [ha1, hb1] at h
    simp only [List.replicate, List.cons_append, List.nil_append, List.cons.injEq] at h
    exact natToDigits_inj h.2
  · rw [if_pos h2a, if_neg h2b] at h
    exfalso
    have ha1 : (natToDigits a).length = 1 := by
      have := List.length_pos_iff_ne_nil.mpr hla
      omega
    have hb0 : b ≠ 0 := by
      intro hb
      rw [hb] at h2b
      exact h2b (by decide)
    apply natToDigits_head_ne_zero hb0
    rw [← h, ha1]
    rfl
  · rw [if_neg h2a, if_pos h2b] at h
    exfalso
    have hb1 : (natToDigits b).length = 1 := by
      have := List.length_pos_iff_ne_nil.mpr hlb
      omega
    have ha0 : a ≠ 0 := by
      intro ha
      rw [ha] at h2a
      exact h2a (by decide)
    apply natToDigits_head_ne_zero ha0
    rw [h, hb1]
    rfl
  · rw [if_neg h2a, if_neg h2b] at h
    exact natToDigits_inj h

/-! ### Totality and correctness of the counter search -/

theorem counter_name_inj (base : Name) : Function.Injective
    (fun n => base ++ '_' :: format02d n) := by
  intro a b h
  simp only at h
  have := List.append_cancel_left h
  exact format02d_inj (List.cons_injective this)

theorem unique_name_loop_spec (scene : Scene) (base : Name) :
    ∀ (fuel counter : Nat),
      (∃ k, k < fuel ∧
        check_name_conflict scene (base ++ '_' :: format02d (counter + k)) = false) →
      ∃ n, unique_name_loop scene base fuel counter = some (base ++ '_' :: format02d n) ∧
        counter ≤ n ∧
        check_name_conflict scene (base ++ '_' :: format02d n) = false ∧
        ∀ m, counter ≤ m → m < n →
          check_name_conflict scene (base ++ '_' :: format02d m) = true := by
  intro fuel
  induction fuel with
  | zero =>
    intro counter h
    rcases h with ⟨k, hk, _⟩
    omega
  | succ fuel ih =>
    intro counter h
    rcases h with ⟨k, hk, hfree⟩
    by_cases hc : check_name_conflict scene (base ++ '_' :: format02d counter) = true
    · have hk0 : k ≠ 0 := by
        intro h0
        rw [h0, Nat.add_zero] at hfree
        rw [hc] at hfree
        exact Bool.true_eq_false.mp hfree
      have hstep : ∃ k', k' < fuel ∧
          check_name_conflict scene (base ++ '_' :: format02d (counter + 1 + k')) = false := by
        refine ⟨k - 1, by omega, ?_⟩
        have heq : counter + 1 + (k - 1) = counter + k := by omega
        rw [heq]
        exact hfree
      rcases ih (counter + 1) hstep with ⟨n, hloop, hle, hfreen, hmin⟩
      refine ⟨n, ?_, by omega, hfreen, ?_⟩
      · show (if check_name_conflict scene (base ++ '_' :: format02d counter) = true then
            unique_name_loop scene base fuel (counter + 1)
          else some (base ++ '_' :: format02d counter)) = some (base ++ '_' :: format02d n)
        rw [if_pos hc]
        exact hloop
      · intro m hm1 hm2
        rcases Nat.eq_or_lt_of_le hm1 with rfl | hlt
        · exact hc
        · exact hmin m hlt hm2
    · refine ⟨counter, ?_, Nat.le_refl _, Bool.of_not_eq_true hc, ?_⟩
      · show (if check_name_conflict scene (base ++ '_' :: format02d counter) = true then
            unique_name_loop scene base fuel (counter + 1)
          else some (base ++ '_' :: format02d counter)) = some (base ++ '_' :: format02d counter)
        rw [if_neg hc]
      · intro m hm1 hm2
        omega

theorem exists_free_counter (scene : Scene) (base : Name) :
    ∃ k, k < scene.length + 1 ∧
      check_name_conflict scene (base ++ '_' :: format02d (1 + k)) = false := by
  by_contra hcon
  push_neg at hcon
  have hmem : ∀ k, k < scene.length + 1 → (base ++ '_' :: format02d (1 + k)) ∈ scene := by
    intro k hk
    have hne := hcon k hk
    cases hb : check_name_conflict scene (base ++ '_' :: format02d (1 + k)) with
    | false => exact absurd hb hne
    | true => exact (check_name_conflict_iff scene _).mp hb
  have hinj : Function.Injective (fun k : Nat => base ++ '_' :: format02d (1 + k)) := by
    intro a b h
    have := counter_name_inj base h
    omega
  have hnd : ((List.range (scene.length + 1)).map
      (fun k => base ++ '_' :: format02d (1 + k))).Nodup :=
    List.Nodup.map hinj (List.nodup_range _)
  have hsub : ((List.range (scene.length + 1)).map
      (fun k => base ++ '_' :: format02d (1 + k))) ⊆ scene := by
    intro x hx
    rcases List.mem_map.mp hx with ⟨k, hk, rfl⟩
    exact hmem k (List.mem_range.mp hk)
  have hcard := (hnd.subperm hsub).length_le
  simp only [List.length_map, List.length_range] at hcard
  omega

/-- C1: the operation `generate_unique_name` always returns a name for which the
scene-existence check `check_name_conflict` is false: the base name itself
when no scene object bears it, and otherwise `f"{base_name}_{counter:02d}"`
for the smallest counter value `n ≥ 1` whose name is absent from the
scene — every smaller counter value `≥ 1` was found taken, so a taken
counter value is never reused. -/
theorem generate_unique_name_spec (scene : Scene) (base_name : Name) :
    ∃ r, generate_unique_name scene base_name = some r ∧
      check_name_conflict scene r = false ∧
      ((check_name_conflict scene base_name = false ∧ r = base_name) ∨
       (check_name_conflict scene base_name = true ∧
        ∃ n, 1 ≤ n ∧ r = base_name ++ '_' :: format02d n ∧
          ∀ m, 1 ≤ m → m < n →
            check_name_conflict scene (base_name ++ '_' :: format02d m) = true)) := by
  by_cases hc : check_name_conflict scene base_name = true
  · have hif : generate_unique_name scene base_name =
        unique_name_loop scene base_name (scene.length + 1) 1 := by
      unfold generate_unique_name
      rw [hc]
      rfl
    rcases exists_free_counter scene base_name with ⟨k, hk, hfree⟩
    rcases unique_name_loop_spec scene base_name (scene.length + 1) 1 ⟨k, hk, hfree⟩ with
      ⟨n, hloop, hle, hfreen, hmin⟩
    refine ⟨base_name ++ '_' :: format02d n, ?_, hfreen,
      Or.inr ⟨hc, n, hle, rfl, hmin⟩⟩
    rw [hif]
    exact hloop
  · have hc' : check_name_conflict scene base_name = false := Bool.of_not_eq_true hc
    have hif : generate_unique_name scene base_name = some base_name := by
      unfold generate_unique_name
      rw [hc']
      rfl
    exact ⟨base_name, hif, hc', Or.inl ⟨hc', rfl⟩⟩

/-! ### The suffix stripper -/

theorem suffix_totality {s t name : Name} (hs : s <:+ name) (ht : t <:+ name) :
    s <:+ t ∨ t <:+ s := by
  have hs' : s.reverse <+: name.reverse := List.reverse_prefix.mpr hs
  have ht' : t.reverse <+: name.reverse := List.reverse_prefix.mpr ht
  rcases List.prefix_or_prefix_of_prefix hs' ht' with h | h
  · exact Or.inl (List.reverse_prefix.mp (by simpa using h))
  · exact Or.inr (List.reverse_prefix.mp (by simpa using h))

theorem suffixes_no_nesting :
    ∀ a ∈ suffixes, ∀ b ∈ suffixes, a <:+ b → a = b := by
  decide

theorem suffix_match_unique {s t : Name} (name : Name) (hs : s ∈ suffixes)
    (ht : t ∈ suffixes) (hsn : s <:+ name) (htn : t <:+ name) : s = t := by
  rcases suffix_totality hsn htn with h | h
  · exact suffixes_no_nesting s hs t ht h
  · exact (suffixes_no_nesting t ht s hs h).symm

theorem take_of_suffix {u s name : Name} (hu : u ++ s = name) :
    name.take (name.length - s.length) = u := by
  rw [← hu, List.length_append, Nat.add_sub_cancel, List.take_left]

/-- C2: for every object name that ends with a known suffix, appending that
same suffix to the result of `clean_object_name` yields the original name
back. -/
theorem clean_then_reapply (name s : Name) (hs : s ∈ suffixes)
    (hsuf : s.isSuffixOf name = true) : clean_object_name name ++ s = name := by
  have hsufp : s <:+ name := List.isSuffixOf_iff_suffix.mp hsuf
  have hsome : (suffixes.find? (fun t => t.isSuffixOf name)).isSome :=
    List.find?_isSome.mpr ⟨s, hs, hsuf⟩
  rcases Option.isSome_iff_exists.mp hsome with ⟨t, ht⟩
  have hpt := List.find?_some ht
  have htm : t ∈ suffixes := List.mem_of_find?_eq_some ht
  have hts : t = s :=
    suffix_match_unique name htm hs (List.isSuffixOf_iff_suffix.mp (by simpa using hpt)) hsufp
  rcases hsufp with ⟨u, hu⟩
  unfold clean_object_name
  rw [ht, hts]
  show name.take (name.length - s.length) ++ s = name
  rw [take_of_suffix hu]
  exact hu

theorem clean_then_reapply_witness :
    toName "_low" ∈ suffixes ∧
    (toName "_low").isSuffixOf (toName "pCube_low") = true ∧
    clean_object_name (toName "pCube_low") ++ toName "_low" = toName "pCube_low" :=
  ⟨by decide, by decide, clean_then_reapply _ _ (by decide) (by decide)⟩

theorem find?_eq_of_first {α : Type} (p : α → Bool) :
    ∀ (l : List α) (i : Nat) (hi : i < l.length),
      p (l.get ⟨i, hi⟩) = true →
      (∀ j (hj : j < l.length), j < i → p (l.get ⟨j, hj⟩) = false) →
      l.find? p = some (l.get ⟨i, hi⟩) := by
  intro l
  induction l with
  | nil =>
    intro i hi
    simp at hi
  | cons a t ih =>
    intro i hi hp hprev
    cases i with
    | zero =>
      have ha : p a = true := hp
      rw [List.find?_cons_of_pos _ ha]
      rfl
    | succ i' =>
      have ha : p a = false := hprev 0 (by simp) (Nat.succ_pos i')
      rw [List.find?_cons_of_neg _ (by simp [ha])]
      have hi' : i' < t.length := by simpa using hi
      have hp' : p (t.get ⟨i', hi'⟩) = true := hp
      have hprev' : ∀ j (hj : j < t.length), j < i' → p (t.get ⟨j, hj⟩) = false := by
        intro j hj hji
        exact hprev (j + 1) (by simpa using Nat.succ_lt_succ hj) (Nat.succ_lt_succ hji)
      exact ih i' hi' hp' hprev'

/-- C6: the operation `clean_object_name` strips at most one suffix, with first-match
(earliest-in-list) precedence over the fixed list: when the name ends with
no listed suffix it is returned unchanged, and when the entry at position
`i` of the list is the earliest listed suffix the name ends with, exactly
that suffix is removed from the end and the rest of the name is returned
unchanged. -/
theorem clean_object_name_spec (name : Name) :
    ((∀ s ∈ suffixes, s.isSuffixOf name = false) → clean_object_name name = name) ∧
    (∀ i, (hi : i < suffixes.length) →
      (suffixes.get ⟨i, hi⟩).isSuffixOf name = true →
      (∀ j, (hj : j < suffixes.length) → j < i →
        (suffixes.get ⟨j, hj⟩).isSuffixOf name = false) →
      ∃ u, name = u ++ suffixes.get ⟨i, hi⟩ ∧ clean_object_name name = u) := by
  constructor
  · intro hnone
    unfold clean_object_name
    have : suffixes.find? (fun t => t.isSuffixOf name) = none := by
      apply List.find?_eq_none.mpr
      intro x hx
      simp [hnone x hx]
    rw [this]
  · intro i hi hp hprev
    have hfind : suffixes.find? (fun t => t.isSuffixOf name) =
        some (suffixes.get ⟨i, hi⟩) :=
      find?_eq_of_first _ suffixes i hi hp hprev
    have hsufp : (suffixes.get ⟨i, hi⟩) <:+ name := List.isSuffixOf_iff_suffix.mp hp
    rcases hsufp with ⟨u, hu⟩
    refine ⟨u, hu.symm, ?_⟩
    unfold clean_object_name
    rw [hfind]
    show name.take (name.length - (suffixes.get ⟨i, hi⟩).length) = u
    exact take_of_suffix hu

theorem clean_object_name_spec_witness :
    ((toName "_high").isSuffixOf (toName "rock_high") = true) ∧
    (∃ u, toName "rock_high" = u ++ toName "_high" ∧
      clean_object_name (toName "rock_high") = u) ∧
    clean_object_name (toName "rock") = toName "rock" :=
  ⟨by decide,
   (clean_object_name_spec (toName "rock_high")).2 1 (by decide) (by decide)
     (by decide),
   (clean_object_name_spec (toName "rock")).1 (by decide)⟩

/-! ### Invariants of the rename loop -/

theorem rename_step_cases (suffix : Name)
    (acc : List Name × List (Name × Name) × RenamerState) (obj : Name) :
    (rename_step suffix acc obj).2.2.rename_history = acc.2.2.rename_history ∧
    (rename_step suffix acc obj).2.2.selection_history = acc.2.2.selection_history ∧
    (((rename_step suffix acc obj).1 = acc.1 ∧
      (rename_step suffix acc obj).2.1 = acc.2.1) ∨
     (∃ n, (rename_step suffix acc obj).1 = acc.1 ++ [n] ∧
       (rename_step suffix acc obj).2.1 = acc.2.1 ++ [(obj, n)])) := by
  simp only [rename_step, cmds_rename]
  split
  case h_1 new_name st' heqr =>
    have hfields : st'.rename_history = acc.2.2.rename_history ∧
        st'.selection_history = acc.2.2.selection_history := by
      split at heqr
      · split at heqr
        · injection heqr with h1 h2
          rw [← h2]
          exact ⟨rfl, rfl⟩
        · injection heqr with h1 h2
          exact absurd h1 (by simp)
      · injection heqr with h1 h2
        rw [← h2]
        exact ⟨rfl, rfl⟩
    split
    · next renamed_obj scene' heq2 =>
      exact ⟨hfields.1, hfields.2, Or.inr ⟨renamed_obj, rfl, rfl⟩⟩
    · exact ⟨hfields.1, hfields.2, Or.inl ⟨rfl, rfl⟩⟩
  case h_2 st' heqr =>
    have hfields : st'.rename_history = acc.2.2.rename_history ∧
        st'.selection_history = acc.2.2.selection_history := by
      split at heqr
      · split at heqr
        · injection heqr with h1 h2
          exact absurd h1 (by simp)
        · injection heqr with h1 h2
          rw [← h2]
          exact ⟨rfl, rfl⟩
      · injection heqr with h1 h2
        exact absurd h1 (by simp)
    exact ⟨hfields.1, hfields.2, Or.inl ⟨rfl, rfl⟩⟩

theorem rename_fold_spec (suffix : Name) :
    ∀ (objs : List Name) (acc : List Name × List (Name × Name) × RenamerState),
      ∃ δ : List (Name × Name),
        (objs.foldl (rename_step suffix) acc).1 = acc.1 ++ δ.map Prod.snd ∧
        (objs.foldl (rename_step suffix) acc).2.1 = acc.2.1 ++ δ ∧
        List.Sublist (δ.map Prod.fst) objs ∧
        (objs.foldl (rename_step suffix) acc).2.2.rename_history =
          acc.2.2.rename_history ∧
        (objs.foldl (rename_step suffix) acc).2.2.selection_history =
          acc.2.2.selection_history := by
  intro objs
  induction objs with
  | nil =>
    intro acc
    exact ⟨[], by simp, by simp, List.nil_sublist _, rfl, rfl⟩
  | cons obj rest ih =>
    intro acc
    rcases rename_step_cases suffix acc obj with ⟨hrh, hsh, hcase⟩
    rcases ih (rename_step suffix acc obj) with ⟨δ, h1, h2, h3, h4, h5⟩
    rcases hcase with ⟨e1, e2⟩ | ⟨n, e1, e2⟩
    · refine ⟨δ, ?_, ?_, h3.cons _, ?_, ?_⟩
      · rw [List.foldl_cons, h1, e1]
      · rw [List.foldl_cons, h2, e2]
      · rw [List.foldl_cons, h4, hrh]
      · rw [List.foldl_cons, h5, hsh]
    · refine ⟨(obj, n) :: δ, ?_, ?_, ?_, ?_, ?_⟩
      · rw [List.foldl_cons, h1, e1]
        simp
      · rw [List.foldl_cons, h2, e2]
        simp
      · simpa using h3.cons₂ obj
      · rw [List.foldl_cons, h4, hrh]
      · rw [List.foldl_cons, h5, hsh]

theorem rename_objects_with_suffix_spec (suffix : Name) (st : RenamerState)
    (objects : List Name) :
    ∃ δ : List (Name × Name),
      (rename_objects_with_suffix suffix st objects).1 = δ.map Prod.snd ∧
      List.Sublist (δ.map Prod.fst) objects ∧
      (rename_objects_with_suffix suffix st objects).2.selection_history =
        st.selection_history ∧
      ((δ = [] ∧ (rename_objects_with_suffix suffix st objects).2.rename_history =
          st.rename_history) ∨
       (δ ≠ [] ∧ (rename_objects_with_suffix suffix st objects).2.rename_history =
          st.rename_history ++ [δ])) := by
  rcases rename_fold_spec suffix objects ([], [], st) with ⟨δ, h1, h2, h3, h4, h5⟩
  refine ⟨δ, ?_, h3, ?_, ?_⟩
  · unfold rename_objects_with_suffix
    simpa using h1
  · unfold rename_objects_with_suffix
    by_cases hd : (objects.foldl (rename_step suffix) ([], [], st)).2.1.isEmpty
    · simp only [hd, if_true]
      exact h5
    · simp only [hd, if_false]
      exact h5
  · by_cases hd : δ = []
    · refine Or.inl ⟨hd, ?_⟩
      unfold rename_objects_with_suffix
      have hempty : (objects.foldl (rename_step suffix) ([], [], st)).2.1.isEmpty = true := by
        rw [h2, hd]
        rfl
      simp only [hempty, if_true]
      exact h4
    · refine Or.inr ⟨hd, ?_⟩
      unfold rename_objects_with_suffix
      have hempty : (objects.foldl (rename_step suffix) ([], [], st)).2.1.isEmpty = false := by
        rw [h2]
        simpa using hd
      simp only [hempty, if_false]
      simp only [h4]
      rw [h2]
      simp

/-! ### Unfolding equations for the rename operations -/

theorem rename_to_low_some (st : RenamerState) (objs : List Name) :
    rename_to_low st (some objs) =
      if objs.isEmpty then ([], st)
      else rename_objects_with_suffix (toName "_low") st objs := rfl

theorem rename_to_low_none_no_selection (st : RenamerState)
    (h : st.selection.isEmpty = true) :
    rename_to_low st none = ([], addWarning st "请先选择要重命名的物体") := by
  simp [rename_to_low, get_selected_objects, h]

theorem rename_to_low_none_selection (st : RenamerState)
    (h : st.selection.isEmpty = false) :
    rename_to_low st none = rename_objects_with_suffix (toName "_low") st st.selection := by
  simp [rename_to_low, get_selected_objects, h]

theorem rename_to_high_some (st : RenamerState) (objs : List Name) :
    rename_to_high st (some objs) =
      if objs.isEmpty then ([], st)
      else rename_objects_with_suffix (toName "_high") st objs := rfl

theorem rename_to_high_none_no_selection (st : RenamerState)
    (h : st.selection.isEmpty = true) :
    rename_to_high st none = ([], addWarning st "请先选择要重命名的物体") := by
  simp [rename_to_high, get_selected_objects, h]

theorem rename_to_high_none_selection (st : RenamerState)
    (h : st.selection.isEmpty = false) :
    rename_to_high st none = rename_objects_with_suffix (toName "_high") st st.selection := by
  simp [rename_to_high, get_selected_objects, h]

/-- The suffix actually used by `rename_with_custom_suffix` after the
`startswith('_')` normalization. -/
def normalize_suffix (suffix : Name) : Name :=
  if (toName "_").isPrefixOf suffix then suffix else '_' :: suffix

theorem rename_custom_empty_suffix (st : RenamerState)
    (objects : Option (List Name)) (suffix : Name) (h : suffix.isEmpty = true) :
    rename_with_custom_suffix st suffix objects = ([], addWarning st "请输入有效的后缀") := by
  simp [rename_with_custom_suffix, h]

theorem rename_custom_some (st : RenamerState) (objs : List Name) (suffix : Name)
    (h : suffix.isEmpty = false) :
    rename_with_custom_suffix st suffix (some objs) =
      if objs.isEmpty then ([], st)
      else rename_objects_with_suffix (normalize_suffix suffix) st objs := by
  simp [rename_with_custom_suffix, h, normalize_suffix]

theorem rename_custom_none_no_selection (st : RenamerState) (suffix : Name)
    (h : suffix.isEmpty = false) (hsel : st.selection.isEmpty = true) :
    rename_with_custom_suffix st suffix none =
      ([], addWarning st "请先选择要重命名的物体") := by
  simp [rename_with_custom_suffix, get_selected_objects, h, hsel]

theorem rename_custom_none_selection (st : RenamerState) (suffix : Name)
    (h : suffix.isEmpty = false) (hsel : st.selection.isEmpty = false) :
    rename_with_custom_suffix st suffix none =
      rename_objects_with_suffix (normalize_suffix suffix) st st.selection := by
  simp [rename_with_custom_suffix, get_selected_objects, h, hsel, normalize_suffix]

theorem rename_discipline_core (suffix : Name) (st : RenamerState)
    (objs : List Name) :
    ((rename_objects_with_suffix suffix st objs).2.rename_history =
        st.rename_history ∧
      (rename_objects_with_suffix suffix st objs).1 = []) ∨
    (∃ batch, batch ≠ [] ∧
      (rename_objects_with_suffix suffix st objs).2.rename_history =
        st.rename_history ++ [batch] ∧
      batch.map Prod.snd = (rename_objects_with_suffix suffix st objs).1 ∧
      List.Sublist (batch.map Prod.fst) objs) := by
  rcases rename_objects_with_suffix_spec suffix st objs with ⟨δ, h1, h2, _, h4⟩
  rcases h4 with ⟨hd, hh⟩ | ⟨hd, hh⟩
  · left
    refine ⟨hh, ?_⟩
    rw [h1, hd]
    rfl
  · right
    exact ⟨δ, hd, hh, h1.symm, h2⟩

/-- C10: every rename operation either leaves the rename history unchanged —
which is what happens when it returns no renamed object — or appends exactly
one non-empty batch at the end of the history, the batch holding the
(original name, returned new name) pairs of the successfully renamed objects
in processing order (its second components are exactly the returned list,
its first components a sublist of the processed object list); earlier
batches are never modified or removed. -/
theorem rename_history_discipline (st : RenamerState) (suffix : Name)
    (objects : Option (List Name)) :
    (((rename_to_low st objects).2.rename_history = st.rename_history ∧
        (rename_to_low st objects).1 = []) ∨
      (∃ batch, batch ≠ [] ∧
        (rename_to_low st objects).2.rename_history = st.rename_history ++ [batch] ∧
        batch.map Prod.snd = (rename_to_low st objects).1 ∧
        List.Sublist (batch.map Prod.fst) (objects.getD st.selection))) ∧
    (((rename_to_high st objects).2.rename_history = st.rename_history ∧
        (rename_to_high st objects).1 = []) ∨
      (∃ batch, batch ≠ [] ∧
        (rename_to_high st objects).2.rename_history = st.rename_history ++ [batch] ∧
        batch.map Prod.snd = (rename_to_high st objects).1 ∧
        List.Sublist (batch.map Prod.fst) (objects.getD st.selection))) ∧
    (((rename_with_custom_suffix st suffix objects).2.rename_history =
          st.rename_history ∧
        (rename_with_custom_suffix st suffix objects).1 = []) ∨
      (∃ batch, batch ≠ [] ∧
        (rename_with_custom_suffix st suffix objects).2.rename_history =
          st.rename_history ++ [batch] ∧
        batch.map Prod.snd = (rename_with_custom_suffix st suffix objects).1 ∧
        List.Sublist (batch.map Prod.fst) (objects.getD st.selection))) := by
  refine ⟨?_, ?_, ?_⟩
  · rcases objects with _ | objs
    · by_cases hsel : st.selection.isEmpty
      · rw [rename_to_low_none_no_selection st hsel]
        exact Or.inl ⟨rfl, rfl⟩
      · rw [rename_to_low_none_selection st (Bool.of_not_eq_true hsel)]
        exact rename_discipline_core _ st st.selection
    · rw [rename_to_low_some st objs]
      by_cases hobjs : objs.isEmpty
      · rw [if_pos hobjs]
        exact Or.inl ⟨rfl, rfl⟩
      · rw [if_neg hobjs]
        exact rename_discipline_core _ st objs
  · rcases objects with _ | objs
    · by_cases hsel : st.selection.isEmpty
      · rw [rename_to_high_none_no_selection st hsel]
        exact Or.inl ⟨rfl, rfl⟩
      · rw [rename_to_high_none_selection st (Bool.of_not_eq_true hsel)]
        exact rename_discipline_core _ st st.selection
    · rw [rename_to_high_some st objs]
      by_cases hobjs : objs.isEmpty
      · rw [if_pos hobjs]
        exact Or.inl ⟨rfl, rfl⟩
      · rw [if_neg hobjs]
        exact rename_discipline_core _ st objs
  · by_cases hsfx : suffix.isEmpty
    · rw [rename_custom_empty_suffix st objects suffix hsfx]
      exact Or.inl ⟨rfl, rfl⟩
    · have hsfx' : suffix.isEmpty = false := Bool.of_not_eq_true hsfx
      rcases objects with _ | objs
      · by_cases hsel : st.selection.isEmpty
        · rw [rename_custom_none_no_selection st suffix hsfx' hsel]
          exact Or.inl ⟨rfl, rfl⟩
        · rw [rename_custom_none_selection st suffix hsfx' (Bool.of_not_eq_true hsel)]
          exact rename_discipline_core _ st st.selection
      · rw [rename_custom_some st objs suffix hsfx']
        by_cases hobjs : objs.isEmpty
        · rw [if_pos hobjs]
          exact Or.inl ⟨rfl, rfl⟩
        · rw [if_neg hobjs]
          exact rename_discipline_core _ st objs

/-- C7: with no explicit object list and an empty selection, each rename
operation warns, aborts and returns the empty list, leaving the scene, the
rename history and the selection history unchanged — a soft validation
failure, not an exception. -/
theorem rename_ops_empty_selection (st : RenamerState) (suffix : Name)
    (h : st.selection = []) :
    ((rename_to_low st none).1 = [] ∧
      (rename_to_low st none).2.scene = st.scene ∧
      (rename_to_low st none).2.rename_history = st.rename_history ∧
      (rename_to_low st none).2.selection_history = st.selection_history ∧
      (∃ w, (rename_to_low st none).2.warnings = st.warnings ++ [w])) ∧
    ((rename_to_high st none).1 = [] ∧
      (rename_to_high st none).2.scene = st.scene ∧
      (rename_to_high st none).2.rename_history = st.rename_history ∧
      (rename_to_high st none).2.selection_history = st.selection_history ∧
      (∃ w, (rename_to_high st none).2.warnings = st.warnings ++ [w])) ∧
    ((rename_with_custom_suffix st suffix none).1 = [] ∧
      (rename_with_custom_suffix st suffix none).2.scene = st.scene ∧
      (rename_with_custom_suffix st suffix none).2.rename_history =
        st.rename_history ∧
      (rename_with_custom_suffix st suffix none).2.selection_history =
        st.selection_history ∧
      (∃ w, (rename_with_custom_suffix st suffix none).2.warnings =
        st.warnings ++ [w])) := by
  have hsel : st.selection.isEmpty = true := by
    rw [h]
    rfl
  refine ⟨?_, ?_, ?_⟩
  · rw [rename_to_low_none_no_selection st hsel]
    exact ⟨rfl, rfl, rfl, rfl, _, rfl⟩
  · rw [rename_to_high_none_no_selection st hsel]
    exact ⟨rfl, rfl, rfl, rfl, _, rfl⟩
  · by_cases hsfx : suffix.isEmpty
    · rw [rename_custom_empty_suffix st none suffix hsfx]
      exact ⟨rfl, rfl, rfl, rfl, _, rfl⟩
    · rw [rename_custom_none_no_selection st suffix (Bool.of_not_eq_true hsfx) hsel]
      exact ⟨rfl, rfl, rfl, rfl, _, rfl⟩

theorem rename_ops_empty_selection_witness :
    (rename_to_low ⟨[toName "pCube1"], [], [], [], [], []⟩ none).1 = [] ∧
    (rename_to_low ⟨[toName "pCube1"], [], [], [], [], []⟩ none).2.scene =
      [toName "pCube1"] ∧
    (rename_with_custom_suffix ⟨[toName "pCube1"], [], [], [], [], []⟩
      (toName "_cage") none).1 = [] :=
  have h := rename_ops_empty_selection ⟨[toName "pCube1"], [], [], [], [], []⟩
    (toName "_cage") rfl
  ⟨h.1.1, h.1.2.1, h.2.2.1⟩

/-- C9: the operation `rename_with_custom_suffix` normalizes its suffix argument: an empty
suffix warns and returns the empty list with scene and histories untouched,
and a non-empty suffix that does not start with an underscore behaves
exactly as if `'_'` had been prepended, so produced names always have an
underscore between base name and custom suffix. -/
theorem rename_custom_suffix_normalization (st : RenamerState) (suffix : Name)
    (objects : Option (List Name)) :
    (suffix = [] →
      (rename_with_custom_suffix st suffix objects).1 = [] ∧
      (rename_with_custom_suffix st suffix objects).2.scene = st.scene ∧
      (rename_with_custom_suffix st suffix objects).2.rename_history =
        st.rename_history ∧
      (rename_with_custom_suffix st suffix objects).2.selection_history =
        st.selection_history ∧
      (∃ w, (rename_with_custom_suffix st suffix objects).2.warnings =
        st.warnings ++ [w])) ∧
    (suffix ≠ [] → (toName "_").isPrefixOf suffix = false →
      rename_with_custom_suffix st suffix objects =
        rename_with_custom_suffix st ('_' :: suffix) objects) := by
  constructor
  · intro hs
    subst hs
    rw [rename_custom_empty_suffix st objects [] rfl]
    exact ⟨rfl, rfl, rfl, rfl, _, rfl⟩
  · intro hne hpre
    have hsfx : suffix.isEmpty = false := by
      cases suffix with
      | nil => exact absurd rfl hne
      | cons c cs => rfl
    have hsfx' : ('_' :: suffix).isEmpty = false := rfl
    have hnorm : normalize_suffix suffix = '_' :: suffix := by
      unfold normalize_suffix
      rw [hpre]
      simp
    have hnorm' : normalize_suffix ('_' :: suffix) = '_' :: suffix := by
      unfold normalize_suffix
      have : (toName "_").isPrefixOf ('_' :: suffix) = true := by
        simp [toName, List.isPrefixOf]
      rw [this]
      simp
    rcases objects with _ | objs
    · by_cases hsel : st.selection.isEmpty
      · rw [rename_custom_none_no_selection st suffix hsfx hsel,
          rename_custom_none_no_selection st ('_' :: suffix) hsfx' hsel]
      · have hsel' := Bool.of_not_eq_true hsel
        rw [rename_custom_none_selection st suffix hsfx hsel',
          rename_custom_none_selection st ('_' :: suffix) hsfx' hsel',
          hnorm, hnorm']
    · rw [rename_custom_some st objs suffix hsfx,
        rename_custom_some st objs ('_' :: suffix) hsfx', hnorm, hnorm']

theorem rename_custom_suffix_normalization_witness :
    rename_with_custom_suffix ⟨[toName "wall"], [toName "wall"], [], [], [], []⟩
        (toName "proxy") (some [toName "wall"]) =
      rename_with_custom_suffix ⟨[toName "wall"], [toName "wall"], [], [], [], []⟩
        ('_' :: toName "proxy") (some [toName "wall"]) :=
  (rename_custom_suffix_normalization ⟨[toName "wall"], [toName "wall"], [], [], [], []⟩
    (toName "proxy") (some [toName "wall"])).2 (by decide) (by decide)

/-! ### The auto low/high selection cycle -/

theorem rename_objects_selection_history (suffix : Name) (st : RenamerState)
    (objs : List Name) :
    (rename_objects_with_suffix suffix st objs).2.selection_history =
      st.selection_history := by
  rcases rename_objects_with_suffix_spec suffix st objs with ⟨δ, _, _, h3, _⟩
  exact h3

theorem rename_to_low_some_selection_history (st : RenamerState) (objs : List Name) :
    (rename_to_low st (some objs)).2.selection_history = st.selection_history := by
  rw [rename_to_low_some]
  by_cases hobjs : objs.isEmpty
  · rw [if_pos hobjs]
  · rw [if_neg hobjs]
    exact rename_objects_selection_history _ st objs

theorem rename_to_high_some_selection_history (st : RenamerState) (objs : List Name) :
    (rename_to_high st (some objs)).2.selection_history = st.selection_history := by
  rw [rename_to_high_some]
  by_cases hobjs : objs.isEmpty
  · rw [if_pos hobjs]
  · rw [if_neg hobjs]
    exact rename_objects_selection_history _ st objs

theorem auto_rename_first (st : RenamerState) (hsel : st.selection.isEmpty = false)
    (hh : st.selection_history = []) :
    auto_rename_by_selection_order st =
      (rename_to_low { st with selection_history := [st.selection] }
        (some st.selection)).2 := by
  simp [auto_rename_by_selection_order, get_selected_objects, hsel, hh]

theorem auto_rename_second (st : RenamerState) (hsel : st.selection.isEmpty = false)
    (hh : st.selection_history.length = 1) :
    auto_rename_by_selection_order st =
      { (rename_to_high
          { st with selection_history := st.selection_history ++ [st.selection] }
          (some st.selection)).2 with selection_history := [] } := by
  simp [auto_rename_by_selection_order, get_selected_objects, hsel, hh]

theorem auto_rename_third (st : RenamerState) (hsel : st.selection.isEmpty = false)
    (hh : 2 ≤ st.selection_history.length) :
    auto_rename_by_selection_order st =
      (rename_to_low { st with selection_history := [st.selection] }
        (some st.selection)).2 := by
  have h1 : st.selection_history.length + 1 ≠ 1 := by omega
  have h2 : st.selection_history.length + 1 ≠ 2 := by omega
  simp [auto_rename_by_selection_order, get_selected_objects, hsel, h1, h2]

theorem auto_hist_first (st : RenamerState) (hsel : st.selection ≠ [])
    (hh : st.selection_history = []) :
    (auto_rename_by_selection_order st).selection_history = [st.selection] := by
  have hsel' : st.selection.isEmpty = false := by
    simpa using hsel
  rw [auto_rename_first st hsel' hh,
    rename_to_low_some_selection_history]

theorem auto_hist_second (st : RenamerState) (hsel : st.selection ≠ [])
    (hh : st.selection_history.length = 1) :
    (auto_rename_by_selection_order st).selection_history = [] := by
  have hsel' : st.selection.isEmpty = false := by
    simpa using hsel
  rw [auto_rename_second st hsel' hh]

/-- C4 counterexample: a third invocation with two snapshots already recorded
does NOT leave the selection history empty — it leaves exactly the new
snapshot in it. -/
theorem auto_rename_third_not_empty :
    ((⟨[toName "a"], [toName "a"], [[toName "x"], [toName "y"]], [], [], []⟩ :
        RenamerState).selection ≠ []) ∧
    2 ≤ (⟨[toName "a"], [toName "a"], [[toName "x"], [toName "y"]], [], [], []⟩ :
        RenamerState).selection_history.length ∧
    (auto_rename_by_selection_order
        ⟨[toName "a"], [toName "a"], [[toName "x"], [toName "y"]], [], [], []⟩
      ).selection_history ≠ [] := by
  decide

/-- C4 (amended): whenever `auto_rename_by_selection_order` is invoked with a
non-empty selection and the selection history already holds two or more
snapshots, the invocation discards the old history and re-seeds it with
exactly the new snapshot — a one-element history, not an empty one. -/
theorem auto_rename_third_reseeds (st : RenamerState) (h1 : st.selection ≠ [])
    (h2 : 2 ≤ st.selection_history.length) :
    (auto_rename_by_selection_order st).selection_history = [st.selection] := by
  have hsel' : st.selection.isEmpty = false := by
    simpa using h1
  rw [auto_rename_third st hsel' h2, rename_to_low_some_selection_history]

theorem auto_rename_third_reseeds_witness :
    (auto_rename_by_selection_order
        ⟨[toName "a"], [toName "a"], [[toName "x"], [toName "y"]], [], [], []⟩
      ).selection_history = [[toName "a"]] :=
  auto_rename_third_reseeds
    ⟨[toName "a"], [toName "a"], [[toName "x"], [toName "y"]], [], [], []⟩
    (by decide) (by decide)

/-- C5: starting from an empty selection history, two consecutive full
low/high cycles — four invocations of `auto_rename_by_selection_order`, each
with a non-empty selection — leave the selection-history length at zero. -/
theorem auto_cycle_twice (st : RenamerState) (s1 s2 s3 s4 : List Name)
    (h0 : st.selection_history = []) (h1 : s1 ≠ []) (h2 : s2 ≠ []) (h3 : s3 ≠ [])
    (h4 : s4 ≠ []) :
    (auto_rename_by_selection_order
      { (auto_rename_by_selection_order
        { (auto_rename_by_selection_order
          { (auto_rename_by_selection_order { st with selection := s1 })
            with selection := s2 }) with selection := s3 })
        with selection := s4 }).selection_history = [] := by
  have e1 : (auto_rename_by_selection_order
      { st with selection := s1 }).selection_history = [s1] :=
    auto_hist_first _ h1 h0
  have e2 : (auto_rename_by_selection_order
      { (auto_rename_by_selection_order { st with selection := s1 })
        with selection := s2 }).selection_history = [] := by
    refine auto_hist_second _ h2 ?_
    show (auto_rename_by_selection_order
      { st with selection := s1 }).selection_history.length = 1
    rw [e1]
    rfl
  have e3 : (auto_rename_by_selection_order
      { (auto_rename_by_selection_order
        { (auto_rename_by_selection_order { st with selection := s1 })
          with selection := s2 }) with selection := s3 }).selection_history = [s3] :=
    auto_hist_first _ h3 e2
  refine auto_hist_second _ h4 ?_
  show (auto_rename_by_selection_order
      { (auto_rename_by_selection_order
        { (auto_rename_by_selection_order { st with selection := s1 })
          with selection := s2 }) with selection := s3 }).selection_history.length = 1
  rw [e3]
  rfl

theorem auto_cycle_twice_witness :
    (auto_rename_by_selection_order
      { (auto_rename_by_selection_order
        { (auto_rename_by_selection_order
          { (auto_rename_by_selection_order
            { (⟨[toName "a", toName "b", toName "c", toName "d"], [],
                [], [], [], []⟩ : RenamerState) with selection := [toName "a"] })
            with selection := [toName "b"] }) with selection := [toName "c"] })
        with selection := [toName "d"] }).selection_history = [] :=
  auto_cycle_twice
    ⟨[toName "a", toName "b", toName "c", toName "d"], [], [], [], [], []⟩
    [toName "a"] [toName "b"] [toName "c"] [toName "d"]
    rfl (by decide) (by decide) (by decide) (by decide)

/-! ### Undo -/

/-- The per-pair undo semantics as the spec states it: rename the object
back to its original name exactly when an object with the recorded new name
still exists in the scene, otherwise leave the scene alone. -/
def undo_pair_spec (sc : Scene) (p : Name × Name) : Scene :=
  if p.2 ∈ sc then rename_in_list sc p.2 p.1 else sc

theorem undo_step_fields (st : RenamerState) (p : Name × Name) :
    (undo_step st p).scene = undo_pair_spec st.scene p ∧
    (undo_step st p).rename_history = st.rename_history ∧
    (undo_step st p).selection_history = st.selection_history ∧
    (undo_step st p).warnings = st.warnings ∧
    (undo_step st p).errors = st.errors := by
  unfold undo_step cmds_rename undo_pair_spec
  by_cases h : p.2 ∈ st.scene
  · have hc : cmds_objExists st.scene p.2 = true := List.elem_iff.mpr h
    rw [hc, if_pos h]
    simp
  · have hc : cmds_objExists st.scene p.2 = false := by
      cases hb : cmds_objExists st.scene p.2 with
      | false => rfl
      | true => exact absurd (List.elem_iff.mp hb) h
    rw [hc, if_neg h]
    simp

theorem undo_fold_spec :
    ∀ (l : List (Name × Name)) (st : RenamerState),
      (l.foldl undo_step st).scene = l.foldl undo_pair_spec st.scene ∧
      (l.foldl undo_step st).rename_history = st.rename_history ∧
      (l.foldl undo_step st).selection_history = st.selection_history ∧
      (l.foldl undo_step st).warnings = st.warnings ∧
      (l.foldl undo_step st).errors = st.errors := by
  intro l
  induction l with
  | nil =>
    intro st
    exact ⟨rfl, rfl, rfl, rfl, rfl⟩
  | cons p t ih =>
    intro st
    rcases ih (undo_step st p) with ⟨h1, h2, h3, h4, h5⟩
    rcases undo_step_fields st p with ⟨g1, g2, g3, g4, g5⟩
    refine ⟨?_, ?_, ?_, ?_, ?_⟩
    · rw [List.foldl_cons, h1, g1, List.foldl_cons]
    · rw [List.foldl_cons, h2, g2]
    · rw [List.foldl_cons, h3, g3]
    · rw [List.foldl_cons, h4, g4]
    · rw [List.foldl_cons, h5, g5]

theorem undo_last_rename_eq (st : RenamerState) (last_batch : List (Name × Name))
    (hget : st.rename_history.getLast? = some last_batch) :
    undo_last_rename st =
      last_batch.reverse.foldl undo_step
        { st with rename_history := st.rename_history.dropLast } := by
  unfold undo_last_rename
  rw [hget]

/-- C3: the operation `undo_last_rename` removes exactly the most recent batch from the
rename history and processes its pairs in reverse order; each pair's object
is renamed back to its original name exactly when an object with the
recorded new name still exists in the scene, and pairs whose new name no
longer exists are silently skipped — no rename, and no warning or error is
recorded. -/
theorem undo_last_rename_spec (st : RenamerState)
    (h : List (List (Name × Name))) (last_batch : List (Name × Name))
    (hh : st.rename_history = h ++ [last_batch]) :
    (undo_last_rename st).rename_history = h ∧
    (undo_last_rename st).scene =
      last_batch.reverse.foldl undo_pair_spec st.scene ∧
    (undo_last_rename st).selection_history = st.selection_history ∧
    (undo_last_rename st).warnings = st.warnings ∧
    (undo_last_rename st).errors = st.errors := by
  have hget : st.rename_history.getLast? = some last_batch := by
    rw [hh]
    exact List.getLast?_concat _
  have hdrop : st.rename_history.dropLast = h := by
    rw [hh]
    exact List.dropLast_concat
  rw [undo_last_rename_eq st last_batch hget]
  rcases undo_fold_spec last_batch.reverse
    { st with rename_history := st.rename_history.dropLast } with ⟨h1, h2, h3, h4, h5⟩
  refine ⟨?_, ?_, h3, h4, h5⟩
  · rw [h2]
    exact hdrop
  · rw [h1]

theorem undo_last_rename_spec_witness :
    (undo_last_rename ⟨[toName "a_low"], [], [],
        [[(toName "a", toName "a_low"), (toName "b", toName "b_low")]], [], []⟩
      ).rename_history = [] ∧
    (undo_last_rename ⟨[toName "a_low"], [], [],
        [[(toName "a", toName "a_low"), (toName "b", toName "b_low")]], [], []⟩
      ).scene =
      ([(toName "a", toName "a_low"), (toName "b", toName "b_low")].reverse).foldl
        undo_pair_spec [toName "a_low"] ∧
    (undo_last_rename ⟨[toName "a_low"], [], [],
        [[(toName "a", toName "a_low"), (toName "b", toName "b_low")]], [], []⟩
      ).errors = [] :=
  have h := undo_last_rename_spec
    ⟨[toName "a_low"], [], [],
      [[(toName "a", toName "a_low"), (toName "b", toName "b_low")]], [], []⟩
    [] [(toName "a", toName "a_low"), (toName "b", toName "b_low")] rfl
  ⟨h.1, h.2.1, h.2.2.2.2⟩

/-! ### Material assignment -/

theorem assign_fold_spec (sg : Name) :
    ∀ (objs : List Name) (acc : List Name × SceneGraph),
      (∀ o ∈ acc.1, (sg, o) ∈ acc.2.setMembers) →
      ((objs.foldl (assign_step sg) acc).1 =
        acc.1 ++ objs.filter (fun o => sg_objExists acc.2 o) ∧
       (objs.foldl (assign_step sg) acc).2.objects = acc.2.objects ∧
       (objs.foldl (assign_step sg) acc).2.shadingEngines = acc.2.shadingEngines ∧
       (objs.foldl (assign_step sg) acc).2.connections = acc.2.connections ∧
       (∀ o ∈ (objs.foldl (assign_step sg) acc).1,
         (sg, o) ∈ (objs.foldl (assign_step sg) acc).2.setMembers)) := by
  intro objs
  induction objs with
  | nil =>
    intro acc hinv
    exact ⟨by simp, rfl, rfl, rfl, hinv⟩
  | cons obj rest ih =>
    intro acc hinv
    by_cases hex : sg_objExists acc.2 obj = true
    · have hstep : assign_step sg acc obj =
          (acc.1 ++ [obj], cmds_sets_forceElement acc.2 sg obj) := by
        unfold assign_step
        rw [hex]
        rfl
      have hkeep : (assign_step sg acc obj).2.objects = acc.2.objects := by
        rw [hstep]
        rfl
      have hinv' : ∀ o ∈ (assign_step sg acc obj).1,
          (sg, o) ∈ (assign_step sg acc obj).2.setMembers := by
        rw [hstep]
        intro o ho
        rcases List.mem_append.mp ho with hol | hor
        · by_cases hoo : o = obj
          · subst hoo
            apply List.mem_append.mpr
            right
            simp [cmds_sets_forceElement]
          · apply List.mem_append.mpr
            left
            apply List.mem_filter.mpr
            refine ⟨hinv o hol, ?_⟩
            have hbeq : ((sg, o).2 == obj) = false := by
              simp [hoo]
            simp [hbeq]
        · apply List.mem_append.mpr
          right
          simp only [List.mem_singleton] at hor
          subst hor
          simp [cmds_sets_forceElement]
      rcases ih (assign_step sg acc obj) hinv' with ⟨h1, h2, h3, h4, h5⟩
      have hsame : ∀ o, sg_objExists (assign_step sg acc obj).2 o =
          sg_objExists acc.2 o := by
        intro o
        unfold sg_objExists
        rw [hkeep]
      refine ⟨?_, ?_, ?_, ?_, h5⟩
      · rw [List.foldl_cons, h1]
        rw [List.filter_congr (fun x _ => hsame x), hstep]
        have hfc : (obj :: rest).filter (fun o => sg_objExists acc.2 o) =
            obj :: rest.filter (fun o => sg_objExists acc.2 o) := by
          rw [List.filter_cons_of_pos]
          exact hex
        rw [hfc]
        simp
      · rw [List.foldl_cons, h2, hkeep]
      · rw [List.foldl_cons, h3, hstep]
        rfl
      · rw [List.foldl_cons, h4, hstep]
        rfl
    · have hex' : sg_objExists acc.2 obj = false := Bool.of_not_eq_true hex
      have hstep : assign_step sg acc obj = acc := by
        unfold assign_step
        rw [hex']
        rfl
      rcases ih acc hinv with ⟨h1, h2, h3, h4, h5⟩
      have hfc : (obj :: rest).filter (fun o => sg_objExists acc.2 o) =
          rest.filter (fun o => sg_objExists acc.2 o) := by
        rw [List.filter_cons_of_neg]
        simp [hex']
      refine ⟨?_, ?_, ?_, ?_, ?_⟩
      · rw [List.foldl_cons, hstep, h1, hfc]
      · rw [List.foldl_cons, hstep, h2]
      · rw [List.foldl_cons, hstep, h3]
      · rw [List.foldl_cons, hstep, h4]
      · rw [List.foldl_cons, hstep]
        exact h5

theorem material_shading_group_reuse (g : SceneGraph) (material c : Name)
    (rest : List Name) (hc : listConnections_shadingEngine g material = c :: rest) :
    material_shading_group g material = (c, g) := by
  unfold material_shading_group
  rw [hc]

theorem material_shading_group_create (g : SceneGraph) (material : Name)
    (hc : listConnections_shadingEngine g material = []) :
    material_shading_group g material =
      (material ++ toName "SG",
       { g with shadingEngines := g.shadingEngines ++ [material ++ toName "SG"],
                connections := g.connections ++
                  [(material, material ++ toName "SG")] }) := by
  unfold material_shading_group cmds_sets_create cmds_connectAttr
  rw [hc]

theorem assign_material_eq (g : SceneGraph) (objects : List Name)
    (material : Name) (h1 : objects.isEmpty = false) (h2 : material.isEmpty = false) :
    assign_material_to_objects g objects material =
      objects.foldl (assign_step (material_shading_group g material).1)
        ([], (material_shading_group g material).2) := by
  simp [assign_material_to_objects, h1, h2]

/-- C8: for a non-empty object list and material name,
`assign_material_to_objects` reuses the first shadingEngine group already
connected to the material, or else creates the renderable group
`f"{material}SG"` and connects the material's outColor to its surfaceShader;
every listed object that exists in the scene is assigned to that group and
is exactly what the returned list holds, and objects that do not exist are
skipped. -/
theorem assign_material_to_objects_spec (g : SceneGraph) (objects : List Name)
    (material : Name) (h1 : objects ≠ []) (h2 : material ≠ []) :
    (assign_material_to_objects g objects material).1 =
      objects.filter (fun o => sg_objExists g o) ∧
    (∀ o ∈ (assign_material_to_objects g objects material).1,
      ((material_shading_group g material).1, o) ∈
        (assign_material_to_objects g objects material).2.setMembers) ∧
    (∀ c rest, listConnections_shadingEngine g material = c :: rest →
      (material_shading_group g material).1 = c) ∧
    (listConnections_shadingEngine g material = [] →
      (material_shading_group g material).1 = material ++ toName "SG" ∧
      (material, material ++ toName "SG") ∈
        (assign_material_to_objects g objects material).2.connections ∧
      (material ++ toName "SG") ∈
        (assign_material_to_objects g objects material).2.shadingEngines) := by
  have h1' : objects.isEmpty = false := by
    cases objects with
    | nil => exact absurd rfl h1
    | cons a t => rfl
  have h2' : material.isEmpty = false := by
    cases material with
    | nil => exact absurd rfl h2
    | cons a t => rfl
  rw [assign_material_eq g objects material h1' h2']
  cases hc : listConnections_shadingEngine g material with
  | cons c rest =>
    have hmsg := material_shading_group_reuse g material c rest hc
    rcases assign_fold_spec (material_shading_group g material).1 objects
      ([], (material_shading_group g material).2)
      (by intro o ho; simp at ho) with ⟨f1, f2, f3, f4, f5⟩
    refine ⟨?_, f5, ?_, ?_⟩
    · rw [f1]
      simp only [List.nil_append]
      apply List.filter_congr
      intro x _
      unfold sg_objExists
      rw [hmsg]
    · intro c' rest' hc'
      injection hc' with hcc hrr
      rw [hmsg, ← hcc]
    · intro hnil
      exact absurd hnil (List.cons_ne_nil c rest)
  | nil =>
    have hmsg := material_shading_group_create g material hc
    rcases assign_fold_spec (material_shading_group g material).1 objects
      ([], (material_shading_group g material).2)
      (by intro o ho; simp at ho) with ⟨f1, f2, f3, f4, f5⟩
    refine ⟨?_, f5, ?_, ?_⟩
    · rw [f1]
      simp only [List.nil_append]
      apply List.filter_congr
      intro x _
      unfold sg_objExists
      rw [hmsg]
    · intro c' rest' hc'
      exact absurd hc'.symm (List.cons_ne_nil c' rest')
    · intro _
      refine ⟨?_, ?_, ?_⟩
      · rw [hmsg]
      · rw [f4, hmsg]
        simp
      · rw [f3, hmsg]
        simp

theorem assign_material_to_objects_spec_witness :
    (assign_material_to_objects ⟨[toName "gun_low"], [], [], []⟩
        [toName "gun_low", toName "ghost"] (toName "mat")).1 =
      [toName "gun_low", toName "ghost"].filter
        (fun o => sg_objExists ⟨[toName "gun_low"], [], [], []⟩ o) ∧
    (toName "mat", toName "mat" ++ toName "SG") ∈
      (assign_material_to_objects ⟨[toName "gun_low"], [], [], []⟩
        [toName "gun_low", toName "ghost"] (toName "mat")).2.connections :=
  have h := assign_material_to_objects_spec ⟨[toName "gun_low"], [], [], []⟩
    [toName "gun_low", toName "ghost"] (toName "mat") (by decide) (by decide)
  ⟨h.1, (h.2.2.2 rfl).2.1⟩
